import Mathlib

/-!
Shallow embedding of `zipline/data/bundles/sqldata.py`, a data-access adapter
that queries a relational store of Chinese equity market records
(tables Issue, SpecialTreatment, StockDaily, Adjustment) and materializes
the results as pandas DataFrames.

The backing store is modelled as lists of typed rows; a materialized
DataFrame is a list of column labels together with a list of rows of cells.
Calendar dates are epoch-day integers; a timestamp additionally carries a
time-of-day component that `pd.Timestamp(x).date()` truncates.
Numeric market fields are rationals (they are opaque pass-through data for
this module).  Failures (pandas `ValueError` on column-length mismatch,
`IndexError` on string indexing, unparseable date inputs) are `Except.error`.
-/

namespace SqlData

/-- One cell of a materialized table: a string, a numeric value,
a calendar date (epoch-day), or a null (NaN/NaT/merge miss). -/
inductive Cell where
  | str (s : String)
  | num (q : ℚ)
  | dt (d : ℤ)
  | null
deriving DecidableEq, Repr

/-- A column label: the default integer labels produced by
`pd.DataFrame.from_records`, or a name assigned via `df.columns = [...]`. -/
inductive ColLabel where
  | idx (n : ℕ)
  | named (s : String)
deriving DecidableEq, BEq, Repr

/-- A materialized table: column labels plus rows of cells. -/
structure DataFrame where
  columns : List ColLabel
  rows : List (List Cell)
deriving DecidableEq, Repr

/-- `pd.DataFrame.from_records(recs)`: rows are the records, columns are the
default integer labels `0 .. k-1` where `k` is the first record's width
(zero columns when there are no records). -/
def DataFrame.from_records (recs : List (List Cell)) : DataFrame :=
  { columns := (List.range ((recs.head?.map List.length).getD 0)).map ColLabel.idx,
    rows := recs }

/-- The pandas `ValueError` raised by `df.columns = names` on width mismatch. -/
def lengthMismatchMsg : String :=
  "Length mismatch: new column labels do not match the axis length"

/-- `df.columns = names`: replaces the column labels, raising a
`ValueError` when the number of names differs from the number of columns. -/
def DataFrame.set_columns (df : DataFrame) (names : List String) :
    Except String DataFrame :=
  if df.columns.length = names.length then
    .ok { df with columns := names.map ColLabel.named }
  else
    .error lengthMismatchMsg

/-- Position of a named column (0 when absent; all uses are on frames that
contain the name). -/
def DataFrame.colIndex (df : DataFrame) (name : String) : ℕ :=
  (df.columns.indexOf? (ColLabel.named name)).getD 0

/-- `df[name] = vals`: append one named column on the right. -/
def DataFrame.pushColumn (df : DataFrame) (name : String) (vals : List Cell) :
    DataFrame :=
  { columns := df.columns ++ [ColLabel.named name],
    rows := List.zipWith (fun row v => row ++ [v]) df.rows vals }

/-- `left.merge(right, 'left', on=key)`: for each left row, emit one output
row per right row with an equal key cell, or a single null-padded row when
no right row matches.  Output columns are the left columns followed by the
right columns minus the key. -/
def DataFrame.mergeLeft (l r : DataFrame) (key : String) : DataFrame :=
  let li := l.colIndex key
  let ri := r.colIndex key
  let keep := (List.range r.columns.length).filter (fun i => decide (i ≠ ri))
  { columns := l.columns ++ keep.map (fun i => r.columns.getD i (ColLabel.idx 0)),
    rows := l.rows.flatMap (fun lrow =>
      let ms := r.rows.filter (fun rrow =>
        decide (rrow.getD ri Cell.null = lrow.getD li Cell.null))
      if ms.isEmpty then
        [lrow ++ keep.map (fun _ => Cell.null)]
      else
        ms.map (fun rrow => lrow ++ keep.map (fun i => rrow.getD i Cell.null))) }

/-- A point in time: calendar day (epoch-day) plus a time-of-day component. -/
structure Timestamp where
  day : ℤ
  tod : ℕ
deriving DecidableEq, Repr

/-- `pd.Timestamp(x).date()` truncates the time-of-day. -/
def Timestamp.date (t : Timestamp) : ℤ := t.day

/-- A date-like argument (`str`, `datetime`, `pd.Timestamp`, ...): either
parseable to a timestamp or unparseable text. -/
inductive DateLike where
  | parseable (t : Timestamp)
  | unparseable (text : String)
deriving DecidableEq, Repr

/-- `pd.Timestamp(x)`: parse a date-like value or raise. -/
def pd_Timestamp : DateLike → Except String Timestamp
  | .parseable t => .ok t
  | .unparseable s => .error ("could not convert input to Timestamp: " ++ s)

/-- Treatment kinds of `SpecialTreatmentType`; only `delisting` and `PT`
matter to this module, all remaining members are collapsed into `other`. -/
inductive SpecialTreatmentType where
  | delisting
  | PT
  | other
deriving DecidableEq, Repr

/-- A row of the Issue table: `code`, nullable `A004_上市日期` (listing date). -/
structure IssueRow where
  code : String
  listing_date : Option ℤ
deriving DecidableEq, Repr

/-- A row of the SpecialTreatment table: `code`, `date`, `treatment`. -/
structure SpecialTreatmentRow where
  code : String
  date : ℤ
  treatment : SpecialTreatmentType
deriving DecidableEq, Repr

/-- A row of the StockDaily table: `code`, `date`, `A001_名称` (display name)
and the ten numeric market fields selected by this module. -/
structure StockDailyRow where
  code : String
  date : ℤ
  name : String
  open_price : ℚ
  high : ℚ
  low : ℚ
  close : ℚ
  prev_close : ℚ
  change_pct : ℚ
  volume : ℚ
  amount : ℚ
  turnover : ℚ
  cmv : ℚ
  tmv : ℚ
deriving DecidableEq, Repr

/-- A row of the Adjustment table: `code`, ex-`date`, `A002_派息` (cash),
`A003_送股` (share ratio) and the three nullable schedule dates. -/
structure AdjustmentRow where
  code : String
  date : ℤ
  amount : ℚ
  ratio : ℚ
  record_date : Option ℤ
  pay_date : Option ℤ
  listing_date : Option ℤ
deriving DecidableEq, Repr

/-- The backing relational store: the four tables, in natural row order. -/
structure Store where
  issues : List IssueRow
  specialTreatments : List SpecialTreatmentRow
  stockDailies : List StockDailyRow
  adjustments : List AdjustmentRow
deriving DecidableEq, Repr

/-- Render a nullable date column value. -/
def optDateCell : Option ℤ → Cell
  | some d => .dt d
  | none => .null

/-- Maximum of a list of dates (`func.max`; groups are never empty). -/
def listMax : List ℤ → ℤ
  | [] => 0
  | d :: ds => ds.foldl max d

/-- Minimum of a list of dates (`func.min`; groups are never empty). -/
def listMin : List ℤ → ℤ
  | [] => 0
  | d :: ds => ds.foldl min d

/-- Effectful map over a list, short-circuiting on the first error
(the semantics of applying a raising function per element). -/
def mapExcept (f : α → Except String β) : List α → Except String (List β)
  | [] => .ok []
  | x :: xs =>
    match f x with
    | .error e => .error e
    | .ok y =>
      match mapExcept f xs with
      | .error e => .error e
      | .ok ys => .ok (y :: ys)

/-- The thirteen public daily-bar column names (module constant). -/
def DAILY_COLS : List String :=
  ["symbol", "date", "open", "high", "low", "close", "prev_close",
   "change_pct", "volume", "amount", "turnover", "cmv", "tmv"]

/-- The seven public adjustment column names (module constant). -/
def ADJUSTMENT_COLS : List String :=
  ["symbol", "date", "amount", "ratio", "record_date", "pay_date",
   "listing_date"]

/-- `get_exchange`: Python reads `code[0]`, which raises `IndexError` on the
empty string; otherwise prefix `'0'`/`'3'` means Shenzhen, else Shanghai. -/
def get_exchange (code : String) : Except String String :=
  match code.data with
  | [] => .error "string index out of range"
  | c :: _ => if c = '0' ∨ c = '3' then .ok "SZSE" else .ok "SSE"

/-- The Issue rows kept by the `isnot(None)` filter on the listing date. -/
def issueKeep (s : Store) : List IssueRow :=
  s.issues.filter (fun r => r.listing_date.isSome)

/-- One record of the Issue query: `(code, A004_上市日期)`. -/
def startRecord (r : IssueRow) : List Cell :=
  [Cell.str r.code, optDateCell r.listing_date]

/-- `get_start_dates`: select `(code, A004_上市日期)` from Issue where the
listing date is not null, then name the two columns. -/
def get_start_dates (s : Store) : Except String DataFrame :=
  (DataFrame.from_records ((issueKeep s).map startRecord)).set_columns
    ["symbol", "start_date"]

/-- Whether a symbol's SpecialTreatment group contains at least one event of
kind `delisting` or `PT` (the HAVING predicate). -/
def hasQualifyingST (s : Store) (c : String) : Bool :=
  s.specialTreatments.any (fun r =>
    decide (r.code = c ∧
      (r.treatment = SpecialTreatmentType.delisting ∨
       r.treatment = SpecialTreatmentType.PT)))

/-- The distinct SpecialTreatment symbols (GROUP BY `code`). -/
def stCodes (s : Store) : List String :=
  (s.specialTreatments.map (fun r => r.code)).dedup

/-- Maximum event date over a symbol's whole SpecialTreatment group. -/
def stGroupMax (s : Store) (c : String) : ℤ :=
  listMax ((s.specialTreatments.filter (fun r => decide (r.code = c))).map
    (fun r => r.date))

/-- The SpecialTreatment groups kept by the HAVING clause. -/
def endQualCodes (s : Store) : List String :=
  (stCodes s).filter (fun c => hasQualifyingST s c)

/-- One record of the grouped SpecialTreatment query: `(code, max(date))`. -/
def endRecord (s : Store) (c : String) : List Cell :=
  [Cell.str c, Cell.dt (stGroupMax s c)]

/-- `get_end_dates`: group SpecialTreatment by `code`, keep groups with a
qualifying (`delisting`/`PT`) event, select `(code, max(date))`, then name
the two columns. -/
def get_end_dates (s : Store) : Except String DataFrame :=
  (DataFrame.from_records ((endQualCodes s).map (endRecord s))).set_columns
    ["symbol", "end_date"]

/-- The distinct StockDaily symbols (GROUP BY `code`). -/
def dailyCodes (s : Store) : List String :=
  (s.stockDailies.map (fun r => r.code)).dedup

/-- A symbol's group of StockDaily rows. -/
def dailyGroup (s : Store) (c : String) : List StockDailyRow :=
  s.stockDailies.filter (fun r => decide (r.code = c))

/-- `func.min(StockDaily.date)` over a symbol's group. -/
def firstTraded (s : Store) (c : String) : ℤ :=
  listMin ((dailyGroup s c).map (fun r => r.date))

/-- `func.max(StockDaily.date)` over a symbol's group. -/
def lastTraded (s : Store) (c : String) : ℤ :=
  listMax ((dailyGroup s c).map (fun r => r.date))

/-- The display name `A001_名称` carried through the GROUP BY: a bare
selected column, resolved here as the group's first stored row's name. -/
def assetName (s : Store) (c : String) : String :=
  (((dailyGroup s c).head?).map (fun r => r.name)).getD ""

/-- One record of the grouped StockDaily query:
`(code, A001_名称, min(date), max(date))`. -/
def metaRecord (s : Store) (c : String) : List Cell :=
  [Cell.str c, Cell.str (assetName s c), Cell.dt (firstTraded s c),
   Cell.dt (lastTraded s c)]

/-- The grouped StockDaily query of `gen_asset_metadata`, with the four
column names assigned. -/
def metaBase (s : Store) : Except String DataFrame :=
  (DataFrame.from_records ((dailyCodes s).map (metaRecord s))).set_columns
    ["symbol", "asset_name", "first_traded", "last_traded"]

/-- Apply `get_exchange` to the symbol cell of one row
(`df['symbol'].map(get_exchange)` applied pointwise at column `i`). -/
def exchangeOfRowAt (i : ℕ) (row : List Cell) : Except String Cell :=
  match row.getD i Cell.null with
  | Cell.str c =>
    match get_exchange c with
    | .ok e => .ok (Cell.str e)
    | .error m => .error m
  | _ => .error "get_exchange applied to a non-string cell"

/-- `df['exchange'] = df['symbol'].map(get_exchange)`. -/
def addExchange (df : DataFrame) : Except String DataFrame :=
  match mapExcept (exchangeOfRowAt (df.colIndex "symbol")) df.rows with
  | .error m => .error m
  | .ok exchs => .ok (df.pushColumn "exchange" exchs)

/-- `df['auto_close_date'] = df['last_traded'].map(lambda x: x + Timedelta(days=1))`. -/
def addAutoClose (df : DataFrame) : DataFrame :=
  df.pushColumn "auto_close_date" (df.rows.map (fun row =>
    match row.getD (df.colIndex "last_traded") Cell.null with
    | Cell.dt d => Cell.dt (d + 1)
    | _ => Cell.null))

/-- `gen_asset_metadata`: grouped StockDaily query, derived `exchange` and
`auto_close_date` columns, then two left merges on `symbol` with the start
and end date tables. -/
def gen_asset_metadata (s : Store) : Except String DataFrame :=
  match metaBase s with
  | .error m => .error m
  | .ok df =>
    match addExchange df with
    | .error m => .error m
    | .ok df2 =>
      match get_start_dates s with
      | .error m => .error m
      | .ok start_dates =>
        match get_end_dates s with
        | .error m => .error m
        | .ok end_dates =>
          .ok (((addAutoClose df2).mergeLeft start_dates "symbol").mergeLeft
            end_dates "symbol")

instance instDecEqExcept {ε α : Type} [DecidableEq ε] [DecidableEq α] :
    DecidableEq (Except ε α) := fun
  | .error e, .error f =>
    if h : e = f then .isTrue (by rw [h]) else .isFalse (by simp [h])
  | .error _, .ok _ => .isFalse (by simp)
  | .ok _, .error _ => .isFalse (by simp)
  | .ok a, .ok b =>
    if h : a = b then .isTrue (by rw [h]) else .isFalse (by simp [h])

/-- Result of an operation that may open a database session: the returned
value (or raised error) together with the number of sessions opened. -/
structure CallResult where
  result : Except String DataFrame
  sessionsOpened : ℕ
deriving DecidableEq, Repr

/-- The thirteen cells of one selected StockDaily row, in `DAILY_COLS` order. -/
def dailyCells (r : StockDailyRow) : List Cell :=
  [Cell.str r.code, Cell.dt r.date, Cell.num r.open_price, Cell.num r.high,
   Cell.num r.low, Cell.num r.close, Cell.num r.prev_close,
   Cell.num r.change_pct, Cell.num r.volume, Cell.num r.amount,
   Cell.num r.turnover, Cell.num r.cmv, Cell.num r.tmv]

/-- The StockDaily rows matched by `fetch_single_equity`'s two filters:
exact `code` match and inclusive date range. -/
def dailyMatches (s : Store) (stock_code : String) (sd ed : ℤ) :
    List StockDailyRow :=
  s.stockDailies.filter (fun r =>
    decide (r.code = stock_code) && decide (sd ≤ r.date ∧ r.date ≤ ed))

/-- `fetch_single_equity`: normalize both date-like inputs with
`pd.Timestamp(.).date()` before the session scope, then select the matching
StockDaily rows and assign the thirteen public column names. -/
def fetch_single_equity (s : Store) (stock_code : String)
    (start end_ : DateLike) : CallResult :=
  match pd_Timestamp start with
  | .error m => ⟨.error m, 0⟩
  | .ok ts =>
    match pd_Timestamp end_ with
    | .error m => ⟨.error m, 0⟩
    | .ok te =>
      ⟨(DataFrame.from_records
          ((dailyMatches s stock_code ts.date te.date).map dailyCells)).set_columns
        DAILY_COLS, 1⟩

/-- The seven cells of one selected Adjustment row, in `ADJUSTMENT_COLS` order. -/
def adjustmentCells (r : AdjustmentRow) : List Cell :=
  [Cell.str r.code, Cell.dt r.date, Cell.num r.amount, Cell.num r.ratio,
   optDateCell r.record_date, optDateCell r.pay_date,
   optDateCell r.listing_date]

/-- The Adjustment rows matched by exact `code` and inclusive date range. -/
def adjustmentMatches (s : Store) (stock_code : String) (sd ed : ℤ) :
    List AdjustmentRow :=
  s.adjustments.filter (fun r =>
    decide (r.code = stock_code) && decide (sd ≤ r.date ∧ r.date ≤ ed))

/-- `fetch_single_quity_adjustments`: normalize dates before the session,
select the matching Adjustment rows; an empty result is returned as-is
(schema-less), a non-empty one gets the seven public column names. -/
def fetch_single_quity_adjustments (s : Store) (stock_code : String)
    (start end_ : DateLike) : CallResult :=
  match pd_Timestamp start with
  | .error m => ⟨.error m, 0⟩
  | .ok ts =>
    match pd_Timestamp end_ with
    | .error m => ⟨.error m, 0⟩
    | .ok te =>
      let df := DataFrame.from_records
        ((adjustmentMatches s stock_code ts.date te.date).map adjustmentCells)
      if df.rows.isEmpty then ⟨.ok df, 1⟩
      else ⟨df.set_columns ADJUSTMENT_COLS, 1⟩

/-- First character of a symbol string, when present. -/
def firstChar (c : String) : Option Char := c.data.head?

/-- The exchange of a non-empty symbol, as a total function: Shenzhen for
prefix `'0'`/`'3'`, Shanghai otherwise. -/
def pureExchange (c : String) : String :=
  if firstChar c = some '0' ∨ firstChar c = some '3' then "SZSE" else "SSE"

/-- The six column labels after the derived-column steps of
`gen_asset_metadata`. -/
def metaCols6 : List ColLabel :=
  (["symbol", "asset_name", "first_traded", "last_traded"].map
    ColLabel.named) ++ [ColLabel.named "exchange"] ++
    [ColLabel.named "auto_close_date"]

/-- The eight column labels of `gen_asset_metadata`'s output. -/
def metaCols8 : List ColLabel :=
  metaCols6 ++ [ColLabel.named "start_date"] ++ [ColLabel.named "end_date"]

/-- One symbol's row after the derived-column steps of
`gen_asset_metadata`, before the merges. -/
def metaRow6 (s : Store) (c : String) : List Cell :=
  metaRecord s c ++ [Cell.str (pureExchange c)] ++
    [Cell.dt (lastTraded s c + 1)]

/-- The start-date rows matching one symbol in the first left merge. -/
def startMatches (s : Store) (c : String) : List IssueRow :=
  (issueKeep s).filter (fun r => decide (r.code = c))

/-- The rows contributed by one symbol after the first left merge. -/
def mergeStartRows (s : Store) (c : String) : List (List Cell) :=
  if (startMatches s c).isEmpty then [metaRow6 s c ++ [Cell.null]]
  else (startMatches s c).map
    (fun r => metaRow6 s c ++ [optDateCell r.listing_date])

/-- The end-date symbols matching one intermediate row in the second left
merge. -/
def endMatches (s : Store) (lrow : List Cell) : List String :=
  (endQualCodes s).filter
    (fun c2 => decide (Cell.str c2 = lrow.getD 0 Cell.null))

/-- The rows contributed by one intermediate row after the second left
merge. -/
def mergeEndRows (s : Store) (lrow : List Cell) : List (List Cell) :=
  if (endMatches s lrow).isEmpty then [lrow ++ [Cell.null]]
  else (endMatches s lrow).map (fun c2 => lrow ++ [Cell.dt (stGroupMax s c2)])

/-- A small concrete backing store exercising every table. -/
def WStore : Store where
  issues := [⟨"000001", some 10⟩, ⟨"600000", some 5⟩]
  specialTreatments :=
    [⟨"000003", 20, SpecialTreatmentType.PT⟩,
     ⟨"000003", 25, SpecialTreatmentType.other⟩,
     ⟨"600001", 30, SpecialTreatmentType.other⟩]
  stockDailies :=
    [⟨"000001", 15, "PAB", 0, 0, 0, 0, 0, 0, 0, 0, 0, 0, 0⟩,
     ⟨"000001", 16, "PAB", 0, 0, 0, 0, 0, 0, 0, 0, 0, 0, 0⟩]
  adjustments := [⟨"600000", 40, 1, 0, some 39, some 41, some 40⟩]

/-- A backing store whose Issue table has only a null listing date and
whose other tables are empty. -/
def NullStore : Store where
  issues := [⟨"000001", none⟩]
  specialTreatments := []
  stockDailies := []
  adjustments := []

/-- The single metadata row produced by `gen_asset_metadata` on `WStore`. -/
def WRow : List Cell :=
  [Cell.str "000001", Cell.str "PAB", Cell.dt 15, Cell.dt 16,
   Cell.str "SZSE", Cell.dt 17, Cell.dt 10, Cell.null]

/-- The metadata frame produced by `gen_asset_metadata` on `WStore`. -/
def WMeta : DataFrame := ⟨metaCols8, [WRow]⟩

/-! ### Lemmas about the DataFrame model -/

theorem set_columns_ok_iff (df0 : DataFrame) (names : List String)
    (df : DataFrame) :
    df0.set_columns names = .ok df ↔
      df0.columns.length = names.length ∧
      df = ⟨names.map ColLabel.named, df0.rows⟩ := by
  unfold DataFrame.set_columns
  split
  · rename_i h
    constructor
    · intro he
      cases he
      exact ⟨h, rfl⟩
    · rintro ⟨-, rfl⟩
      rfl
  · rename_i h
    constructor
    · intro he
      exact absurd he (by simp)
    · rintro ⟨h2, -⟩
      exact absurd h2 h

theorem records_set_columns_ok {α : Type} (l : List α) (f : α → List Cell)
    (names : List String) (df : DataFrame)
    (hf : ∀ x, (f x).length = names.length) (hn : 0 < names.length) :
    (DataFrame.from_records (l.map f)).set_columns names = .ok df ↔
      (l ≠ [] ∧ df = ⟨names.map ColLabel.named, l.map f⟩) := by
  rw [set_columns_ok_iff]
  constructor
  · rintro ⟨hlen, rfl⟩
    cases l with
    | nil =>
      exfalso
      simp [DataFrame.from_records] at hlen
      omega
    | cons x xs => exact ⟨by simp, rfl⟩
  · rintro ⟨hl, rfl⟩
    refine ⟨?_, rfl⟩
    cases l with
    | nil => exact absurd rfl hl
    | cons x xs => simpa [DataFrame.from_records] using hf x

theorem get_start_dates_ok_iff (s : Store) (df : DataFrame) :
    get_start_dates s = .ok df ↔
      issueKeep s ≠ [] ∧
      df = ⟨["symbol", "start_date"].map ColLabel.named,
            (issueKeep s).map startRecord⟩ :=
  records_set_columns_ok _ _ _ _ (fun _ => rfl) (by decide)

theorem get_end_dates_ok_iff (s : Store) (df : DataFrame) :
    get_end_dates s = .ok df ↔
      endQualCodes s ≠ [] ∧
      df = ⟨["symbol", "end_date"].map ColLabel.named,
            (endQualCodes s).map (endRecord s)⟩ :=
  records_set_columns_ok _ _ _ _ (fun _ => rfl) (by decide)

theorem metaBase_ok_iff (s : Store) (df : DataFrame) :
    metaBase s = .ok df ↔
      dailyCodes s ≠ [] ∧
      df = ⟨["symbol", "asset_name", "first_traded", "last_traded"].map
              ColLabel.named,
            (dailyCodes s).map (metaRecord s)⟩ :=
  records_set_columns_ok _ _ _ _ (fun _ => rfl) (by decide)

/-! ### Lemmas about `mapExcept` and `get_exchange` -/

theorem mapExcept_ok_forall {α β : Type} {f : α → Except String β} :
    ∀ {l : List α} {m : List β}, mapExcept f l = .ok m →
      ∀ x ∈ l, ∃ y, f x = .ok y := by
  intro l
  induction l with
  | nil =>
    intro m _ x hx
    cases hx
  | cons a as ih =>
    intro m h x hx
    unfold mapExcept at h
    split at h
    · exact absurd h (by simp)
    · rename_i y hfa
      split at h
      · exact absurd h (by simp)
      · rename_i ys hrest
        rcases List.mem_cons.mp hx with rfl | hx'
        · exact ⟨y, hfa⟩
        · exact ih hrest x hx'

theorem mapExcept_map_ok {α β γ : Type} {f : β → Except String γ}
    {g : α → β} {gg : α → γ} :
    ∀ {l : List α}, (∀ x ∈ l, f (g x) = .ok (gg x)) →
      mapExcept f (l.map g) = .ok (l.map gg) := by
  intro l
  induction l with
  | nil => intro _; rfl
  | cons a as ih =>
    intro h
    have ha := h a (List.mem_cons_self a as)
    have has := ih (fun x hx => h x (List.mem_cons_of_mem a hx))
    simp only [List.map_cons]
    unfold mapExcept
    rw [ha, has]

theorem get_exchange_eq_pure {c : String} (h : c.data ≠ []) :
    get_exchange c = .ok (pureExchange c) := by
  unfold get_exchange pureExchange firstChar
  cases hc : c.data with
  | nil => exact absurd hc h
  | cons a rest =>
    by_cases h03 : a = '0' ∨ a = '3'
    · simp [h03]
    · simp [h03, Option.some.injEq]

theorem get_exchange_ne_nil {c y : String} (h : get_exchange c = .ok y) :
    c.data ≠ [] := by
  intro hc
  unfold get_exchange at h
  rw [hc] at h
  exact absurd h (by simp)

/-! ### Claim C9: totality of the exchange rule, empty-string failure -/

/-- C9: `get_exchange` reads the symbol's first character with no emptiness
guard: on every non-empty symbol it totally returns `"SZSE"` or `"SSE"`,
while on the empty string it fails with an out-of-range index error instead
of returning a value. -/
theorem get_exchange_total_or_raises (c : String) :
    (c ≠ "" → get_exchange c = .ok "SZSE" ∨ get_exchange c = .ok "SSE") ∧
    (c = "" → get_exchange c = .error "string index out of range") := by
  constructor
  · intro h
    have hd : c.data ≠ [] := fun hc => h (String.ext hc)
    rw [get_exchange_eq_pure hd]
    unfold pureExchange
    by_cases h03 : firstChar c = some '0' ∨ firstChar c = some '3'
    · left
      rw [if_pos h03]
    · right
      rw [if_neg h03]
  · intro h
    subst h
    rfl

/-- Witness for C9 at the concrete symbols `"000001"` and `""`. -/
theorem get_exchange_total_or_raises_witness :
    (get_exchange "000001" = .ok "SZSE" ∨ get_exchange "000001" = .ok "SSE") ∧
    get_exchange "" = .error "string index out of range" :=
  ⟨(get_exchange_total_or_raises "000001").1 (by decide),
   (get_exchange_total_or_raises "").2 rfl⟩

/-! ### Claim C10: dates are normalized before the session scope -/

/-- C10: both fetchers parse and normalize the date-like inputs before
entering the session scope: on any unparseable input they propagate the
normalization error without opening a session, and the outcome is
independent of the backing store. -/
theorem parse_before_session (s s2 : Store) (c : String) (a b : DateLike)
    (h : (∃ m, pd_Timestamp a = .error m) ∨ (∃ m, pd_Timestamp b = .error m)) :
    ((fetch_single_equity s c a b).sessionsOpened = 0 ∧
     (∃ m, (fetch_single_equity s c a b).result = .error m) ∧
     fetch_single_equity s c a b = fetch_single_equity s2 c a b) ∧
    ((fetch_single_quity_adjustments s c a b).sessionsOpened = 0 ∧
     (∃ m, (fetch_single_quity_adjustments s c a b).result = .error m) ∧
     fetch_single_quity_adjustments s c a b =
       fetch_single_quity_adjustments s2 c a b) := by
  cases a with
  | unparseable t => exact ⟨⟨rfl, ⟨_, rfl⟩, rfl⟩, rfl, ⟨_, rfl⟩, rfl⟩
  | parseable ta =>
    cases b with
    | unparseable t => exact ⟨⟨rfl, ⟨_, rfl⟩, rfl⟩, rfl, ⟨_, rfl⟩, rfl⟩
    | parseable tb =>
      rcases h with ⟨m, hm⟩ | ⟨m, hm⟩ <;> exact absurd hm (by simp [pd_Timestamp])

/-- Witness for C10 with an unparseable start date. -/
theorem parse_before_session_witness :
    (fetch_single_equity WStore "000001" (DateLike.unparseable "not-a-date")
      (DateLike.parseable ⟨0, 0⟩)).sessionsOpened = 0 :=
  ((parse_before_session WStore NullStore "000001" (DateLike.unparseable
    "not-a-date") (DateLike.parseable ⟨0, 0⟩) (Or.inl ⟨_, rfl⟩)).1).1

/-! ### Claim C5: the filter semantics of `fetch_single_equity` -/

/-- C5: `fetch_single_equity` truncates the time-of-day of both date-like
inputs and, whenever it returns a frame, that frame holds exactly the
StockDaily rows whose symbol equals the requested one and whose date lies
in the inclusive normalized range. -/
theorem fetch_single_equity_filter (s : Store) (c : String)
    (ts te : Timestamp) :
    (∀ df, (fetch_single_equity s c (.parseable ts) (.parseable te)).result =
        .ok df →
      df.columns = DAILY_COLS.map ColLabel.named ∧
      df.rows = (dailyMatches s c ts.day te.day).map dailyCells) ∧
    fetch_single_equity s c (.parseable ts) (.parseable te) =
      fetch_single_equity s c (.parseable ⟨ts.day, 0⟩)
        (.parseable ⟨te.day, 0⟩) := by
  constructor
  · intro df h
    replace h : (DataFrame.from_records
        ((dailyMatches s c ts.day te.day).map dailyCells)).set_columns
        DAILY_COLS = .ok df := h
    obtain ⟨-, rfl⟩ :=
      (records_set_columns_ok _ _ _ _ (fun _ => rfl) (by decide)).mp h
    exact ⟨rfl, rfl⟩
  · rfl

/-- Witness for C5 on the concrete store, with a start timestamp carrying a
nonzero time-of-day. -/
theorem fetch_single_equity_filter_witness :
    (DataFrame.mk (DAILY_COLS.map ColLabel.named)
        ((dailyMatches WStore "000001" 14 15).map dailyCells)).columns =
      DAILY_COLS.map ColLabel.named ∧
    (DataFrame.mk (DAILY_COLS.map ColLabel.named)
        ((dailyMatches WStore "000001" 14 15).map dailyCells)).rows =
      (dailyMatches WStore "000001" 14 15).map dailyCells :=
  (fetch_single_equity_filter WStore "000001" ⟨14, 5⟩ ⟨15, 0⟩).1 _ (by decide)

/-! ### Claim C2 (corrected): empty daily result raises -/

/-- C2 counterexample: at a concrete store and range with no matching row,
`fetch_single_equity` raises the pandas column-length `ValueError` instead
of returning an empty sequence. -/
theorem fetch_single_equity_empty_raises :
    (fetch_single_equity WStore "000333" (DateLike.parseable ⟨0, 0⟩)
      (DateLike.parseable ⟨1, 0⟩)).result = .error lengthMismatchMsg := by
  decide

/-- C2 (amended): with no matching StockDaily rows `fetch_single_equity`
raises the column-length error; with at least one matching row its output
carries the thirteen fixed columns in the fixed order. -/
theorem fetch_single_equity_schema (s : Store) (c : String)
    (ts te : Timestamp) :
    (dailyMatches s c ts.day te.day = [] →
      (fetch_single_equity s c (.parseable ts) (.parseable te)).result =
        .error lengthMismatchMsg) ∧
    (dailyMatches s c ts.day te.day ≠ [] →
      (fetch_single_equity s c (.parseable ts) (.parseable te)).result =
        .ok ⟨DAILY_COLS.map ColLabel.named,
             (dailyMatches s c ts.day te.day).map dailyCells⟩) := by
  constructor
  · intro hm
    show (DataFrame.from_records
        ((dailyMatches s c ts.day te.day).map dailyCells)).set_columns
        DAILY_COLS = .error lengthMismatchMsg
    rw [hm]
    rfl
  · intro hm
    show (DataFrame.from_records
        ((dailyMatches s c ts.day te.day).map dailyCells)).set_columns
        DAILY_COLS = _
    exact (records_set_columns_ok _ _ _ _ (fun _ => rfl) (by decide)).mpr
      ⟨hm, rfl⟩

/-- Witness for C2's amended statement: one store/range with no match and
one with a match. -/
theorem fetch_single_equity_schema_witness :
    (fetch_single_equity WStore "999999" (DateLike.parseable ⟨0, 0⟩)
        (DateLike.parseable ⟨1, 0⟩)).result = .error lengthMismatchMsg ∧
    (fetch_single_equity WStore "000001" (DateLike.parseable ⟨14, 0⟩)
        (DateLike.parseable ⟨15, 0⟩)).result =
      .ok ⟨DAILY_COLS.map ColLabel.named,
           (dailyMatches WStore "000001" 14 15).map dailyCells⟩ :=
  ⟨(fetch_single_equity_schema WStore "999999" ⟨0, 0⟩ ⟨1, 0⟩).1 (by decide),
   (fetch_single_equity_schema WStore "000001" ⟨14, 0⟩ ⟨15, 0⟩).2 (by decide)⟩

/-! ### Claim C4: the adjustments empty/non-empty asymmetry -/

/-- C4: `fetch_single_quity_adjustments` returns an explicitly empty,
schema-less frame on zero matches, and the seven fixed columns in order —
one row per matching (symbol, ex-date) pair in store order — otherwise. -/
theorem fetch_adjustments_schema (s : Store) (c : String)
    (ts te : Timestamp) :
    (adjustmentMatches s c ts.day te.day = [] →
      (fetch_single_quity_adjustments s c (.parseable ts)
        (.parseable te)).result = .ok ⟨[], []⟩) ∧
    (adjustmentMatches s c ts.day te.day ≠ [] →
      (fetch_single_quity_adjustments s c (.parseable ts)
        (.parseable te)).result =
        .ok ⟨ADJUSTMENT_COLS.map ColLabel.named,
             (adjustmentMatches s c ts.day te.day).map adjustmentCells⟩) := by
  constructor
  · intro hm
    simp only [fetch_single_quity_adjustments, pd_Timestamp, Timestamp.date]
    rw [hm]
    rfl
  · intro hm
    cases hmm : adjustmentMatches s c ts.day te.day with
    | nil => exact absurd hmm hm
    | cons a as =>
      simp only [fetch_single_quity_adjustments, pd_Timestamp, Timestamp.date]
      rw [hmm]
      rfl

/-- Witness for C4: a range with no adjustment and one with an adjustment,
on the concrete store. -/
theorem fetch_adjustments_schema_witness :
    (fetch_single_quity_adjustments WStore "600000" (DateLike.parseable ⟨0, 0⟩)
        (DateLike.parseable ⟨5, 0⟩)).result = .ok ⟨[], []⟩ ∧
    (fetch_single_quity_adjustments WStore "600000" (DateLike.parseable ⟨0, 0⟩)
        (DateLike.parseable ⟨50, 0⟩)).result =
      .ok ⟨ADJUSTMENT_COLS.map ColLabel.named,
           (adjustmentMatches WStore "600000" 0 50).map adjustmentCells⟩ :=
  ⟨(fetch_adjustments_schema WStore "600000" ⟨0, 0⟩ ⟨5, 0⟩).1 (by decide),
   (fetch_adjustments_schema WStore "600000" ⟨0, 0⟩ ⟨50, 0⟩).2 (by decide)⟩

/-! ### Claim C8 (corrected): start dates, with the empty case raising -/

/-- C8 counterexample: on a store whose Issue table has only a null listing
date, `get_start_dates` raises the column-length error instead of returning
an empty sequence. -/
theorem get_start_dates_empty_raises :
    get_start_dates NullStore = .error lengthMismatchMsg := by decide

/-- C8 (amended): `get_start_dates` returns exactly the
(symbol, listing date) pairs of Issue rows with a non-null listing date
when at least one such row exists; with zero such rows it raises the
column-length error instead of returning an empty sequence. -/
theorem get_start_dates_spec (s : Store) :
    (issueKeep s ≠ [] →
      get_start_dates s = .ok ⟨["symbol", "start_date"].map ColLabel.named,
        (issueKeep s).map startRecord⟩) ∧
    (issueKeep s = [] → get_start_dates s = .error lengthMismatchMsg) := by
  constructor
  · intro h
    exact (get_start_dates_ok_iff s _).mpr ⟨h, rfl⟩
  · intro h
    unfold get_start_dates
    rw [h]
    rfl

/-- Witness for C8's amended statement at two concrete stores. -/
theorem get_start_dates_spec_witness :
    get_start_dates WStore =
      .ok ⟨["symbol", "start_date"].map ColLabel.named,
           (issueKeep WStore).map startRecord⟩ ∧
    get_start_dates NullStore = .error lengthMismatchMsg :=
  ⟨(get_start_dates_spec WStore).1 (by decide),
   (get_start_dates_spec NullStore).2 (by decide)⟩

/-! ### Claim C1: content of `get_end_dates` -/

theorem mem_endQualCodes (s : Store) (c : String) :
    c ∈ endQualCodes s ↔ hasQualifyingST s c = true := by
  unfold endQualCodes stCodes
  rw [List.mem_filter, List.mem_dedup]
  constructor
  · exact fun h => h.2
  · intro h
    refine ⟨?_, h⟩
    unfold hasQualifyingST at h
    obtain ⟨r, hr, hdec⟩ := List.any_eq_true.mp h
    exact List.mem_map.mpr ⟨r, hr, (of_decide_eq_true hdec).1⟩

/-- C1: whenever `get_end_dates` returns a frame, that frame holds exactly
the symbols having at least one event of kind delisting or PT, each paired
with the maximum event date over the symbol's whole group; a symbol with
zero qualifying events never appears. -/
theorem get_end_dates_spec (s : Store) (df : DataFrame)
    (h : get_end_dates s = .ok df) :
    df.columns = ["symbol", "end_date"].map ColLabel.named ∧
    (∀ row ∈ df.rows, ∃ c, hasQualifyingST s c = true ∧
      row = [Cell.str c, Cell.dt (stGroupMax s c)]) ∧
    (∀ c, hasQualifyingST s c = true →
      [Cell.str c, Cell.dt (stGroupMax s c)] ∈ df.rows) := by
  obtain ⟨hne, rfl⟩ := (get_end_dates_ok_iff s df).mp h
  refine ⟨rfl, ?_, ?_⟩
  · intro row hrow
    obtain ⟨c, hc, rfl⟩ := List.mem_map.mp hrow
    exact ⟨c, (mem_endQualCodes s c).mp hc, rfl⟩
  · intro c hc
    exact List.mem_map.mpr ⟨c, (mem_endQualCodes s c).mpr hc, rfl⟩

/-- Witness for C1 at the concrete store: symbol `"000003"` has one PT
event and appears paired with its group maximum date. -/
theorem get_end_dates_spec_witness :
    [Cell.str "000003", Cell.dt (stGroupMax WStore "000003")] ∈
      (DataFrame.mk (["symbol", "end_date"].map ColLabel.named)
        [[Cell.str "000003", Cell.dt 25]]).rows :=
  (get_end_dates_spec WStore _ (by decide)).2.2 "000003" (by decide)

/-! ### List helper lemmas for the metadata pipeline -/

theorem zipWith_map_map {α β γ δ : Type} (f : β → γ → δ) (g : α → β)
    (h2 : α → γ) (l : List α) :
    List.zipWith f (l.map g) (l.map h2) = l.map (fun x => f (g x) (h2 x)) := by
  induction l with
  | nil => rfl
  | cons x xs ih =>
    simp only [List.map_cons, List.zipWith_cons_cons]
    rw [ih]

theorem zipWith_self_map {α β γ : Type} (f : α → β → γ) (g : α → β)
    (l : List α) :
    List.zipWith f l (l.map g) = l.map (fun x => f x (g x)) := by
  induction l with
  | nil => rfl
  | cons x xs ih =>
    simp only [List.map_cons, List.zipWith_cons_cons]
    rw [ih]

theorem flatMap_of_map {α β γ : Type} (g : α → β) (f : β → List γ)
    (l : List α) :
    (l.map g).flatMap f = l.flatMap (fun x => f (g x)) := by
  induction l with
  | nil => rfl
  | cons a as ih =>
    simp only [List.map_cons, List.flatMap_cons]
    rw [ih]

theorem flatMap_congr {α β : Type} {f g : α → List β} :
    ∀ {l : List α}, (∀ x ∈ l, f x = g x) → l.flatMap f = l.flatMap g := by
  intro l
  induction l with
  | nil => intro _; rfl
  | cons a as ih =>
    intro h
    rw [List.flatMap_cons, List.flatMap_cons, h a (List.mem_cons_self a as),
      ih (fun x hx => h x (List.mem_cons_of_mem a hx))]

theorem flatMap_length_ones {α β : Type} {f : α → List β} :
    ∀ {l : List α}, (∀ x ∈ l, (f x).length = 1) →
      (l.flatMap f).length = l.length := by
  intro l
  induction l with
  | nil => intro _; rfl
  | cons a as ih =>
    intro h
    rw [List.flatMap_cons, List.length_append, h a (List.mem_cons_self a as),
      ih (fun x hx => h x (List.mem_cons_of_mem a hx)), List.length_cons]
    omega

theorem filter_eq_of_nodup {α : Type} [DecidableEq α] {l : List α}
    (hl : l.Nodup) (c : α) :
    l.filter (fun x => decide (x = c)) = if c ∈ l then [c] else [] := by
  induction l with
  | nil => simp
  | cons x xs ih =>
    rw [List.nodup_cons] at hl
    by_cases hxc : x = c
    · subst hxc
      rw [List.filter_cons_of_pos (by simp)]
      have hnil : xs.filter (fun y => decide (y = x)) = [] := by
        rw [List.filter_eq_nil_iff]
        intro y hy hdec
        exact hl.1 ((of_decide_eq_true hdec) ▸ hy)
      rw [hnil, if_pos (List.mem_cons_self x xs)]
    · rw [List.filter_cons_of_neg (by simp [hxc]), ih hl.2]
      have hcx : ¬c = x := fun hh => hxc hh.symm
      simp [List.mem_cons, hcx]

theorem length_filter_le_one {α β : Type} [DecidableEq β] {l : List α}
    {g : α → β} (h : (l.map g).Nodup) (c : β) :
    (l.filter (fun x => decide (g x = c))).length ≤ 1 := by
  induction l with
  | nil => simp
  | cons x xs ih =>
    rw [List.map_cons, List.nodup_cons] at h
    by_cases hx : g x = c
    · rw [List.filter_cons_of_pos (by simp [hx])]
      have hnil : xs.filter (fun y => decide (g y = c)) = [] := by
        rw [List.filter_eq_nil_iff]
        intro y hy hdec
        exact h.1 (List.mem_map.mpr ⟨y, hy,
          (of_decide_eq_true hdec).trans hx.symm⟩)
      rw [hnil]
      exact le_refl 1
    · rw [List.filter_cons_of_neg (by simp [hx])]
      exact ih h.2

/-! ### The derived-column steps of `gen_asset_metadata` -/

theorem addExchange_meta (s : Store) (df2 : DataFrame)
    (h : addExchange ⟨["symbol", "asset_name", "first_traded",
        "last_traded"].map ColLabel.named,
        (dailyCodes s).map (metaRecord s)⟩ = .ok df2) :
    (∀ c ∈ dailyCodes s, c.data ≠ []) ∧
    df2 = ⟨(["symbol", "asset_name", "first_traded", "last_traded"].map
        ColLabel.named) ++ [ColLabel.named "exchange"],
        (dailyCodes s).map (fun c => metaRecord s c ++
          [Cell.str (pureExchange c)])⟩ := by
  unfold addExchange at h
  split at h
  · exact absurd h (by simp)
  · rename_i exchs hm
    have hcodes : ∀ c ∈ dailyCodes s, c.data ≠ [] := by
      intro c hc
      obtain ⟨y, hy⟩ := mapExcept_ok_forall hm (metaRecord s c)
        (List.mem_map.mpr ⟨c, hc, rfl⟩)
      replace hy : (match get_exchange c with
        | .ok e => Except.ok (Cell.str e)
        | .error m => Except.error m) = .ok y := hy
      cases hg : get_exchange c with
      | error m => rw [hg] at hy; exact absurd hy (by simp)
      | ok e => exact get_exchange_ne_nil hg
    have hall : ∀ c ∈ dailyCodes s,
        exchangeOfRowAt
          (DataFrame.colIndex
            ⟨["symbol", "asset_name", "first_traded", "last_traded"].map
              ColLabel.named, (dailyCodes s).map (metaRecord s)⟩ "symbol")
          (metaRecord s c) = .ok (Cell.str (pureExchange c)) := by
      intro c hc
      show (match get_exchange c with
        | .ok e => Except.ok (Cell.str e)
        | .error m => Except.error m) = .ok (Cell.str (pureExchange c))
      rw [get_exchange_eq_pure (hcodes c hc)]
    have hm2 := mapExcept_map_ok hall
    obtain rfl : exchs = (dailyCodes s).map
        (fun c => Cell.str (pureExchange c)) :=
      (Except.ok.inj (hm2.symm.trans hm)).symm
    cases h
    refine ⟨hcodes, ?_⟩
    unfold DataFrame.pushColumn
    rw [DataFrame.mk.injEq]
    exact ⟨rfl, zipWith_map_map _ _ _ _⟩

theorem addAutoClose_meta (s : Store) :
    addAutoClose ⟨(["symbol", "asset_name", "first_traded",
        "last_traded"].map ColLabel.named) ++ [ColLabel.named "exchange"],
      (dailyCodes s).map (fun c => metaRecord s c ++
        [Cell.str (pureExchange c)])⟩ =
    ⟨metaCols6, (dailyCodes s).map (metaRow6 s)⟩ := by
  unfold addAutoClose DataFrame.pushColumn
  rw [DataFrame.mk.injEq]
  refine ⟨rfl, ?_⟩
  rw [zipWith_self_map, List.map_map]
  rfl

/-! ### The two left merges of `gen_asset_metadata` -/

theorem mergeLeft_start (s : Store) :
    DataFrame.mergeLeft ⟨metaCols6, (dailyCodes s).map (metaRow6 s)⟩
      ⟨["symbol", "start_date"].map ColLabel.named,
       (issueKeep s).map startRecord⟩ "symbol" =
    ⟨metaCols6 ++ [ColLabel.named "start_date"],
     (dailyCodes s).flatMap (mergeStartRows s)⟩ := by
  simp only [DataFrame.mergeLeft]
  rw [DataFrame.mk.injEq]
  refine ⟨rfl, ?_⟩
  rw [flatMap_of_map]
  apply flatMap_congr
  intro c hc
  show (if (((issueKeep s).map startRecord).filter
        (fun rrow => decide (rrow.getD 0 Cell.null = Cell.str c))).isEmpty
      then [metaRow6 s c ++ [Cell.null]]
      else (((issueKeep s).map startRecord).filter
        (fun rrow => decide (rrow.getD 0 Cell.null = Cell.str c))).map
        (fun rrow => metaRow6 s c ++ [rrow.getD 1 Cell.null])) =
    mergeStartRows s c
  have hfil : ((issueKeep s).map startRecord).filter
      (fun rrow => decide (rrow.getD 0 Cell.null = Cell.str c)) =
      (startMatches s c).map startRecord := by
    rw [List.filter_map]
    unfold startMatches
    refine congrArg (List.map startRecord) (List.filter_congr ?_)
    intro r _
    show decide (Cell.str r.code = Cell.str c) = decide (r.code = c)
    exact decide_eq_decide.mpr (by simp)
  rw [hfil]
  unfold mergeStartRows
  cases hsm : startMatches s c with
  | nil => rfl
  | cons a as =>
    rw [List.map_map]
    rfl

theorem mergeLeft_end (s : Store) (rws : List (List Cell)) :
    DataFrame.mergeLeft ⟨metaCols6 ++ [ColLabel.named "start_date"], rws⟩
      ⟨["symbol", "end_date"].map ColLabel.named,
       (endQualCodes s).map (endRecord s)⟩ "symbol" =
    ⟨metaCols8, rws.flatMap (mergeEndRows s)⟩ := by
  simp only [DataFrame.mergeLeft]
  rw [DataFrame.mk.injEq]
  refine ⟨rfl, ?_⟩
  apply flatMap_congr
  intro lrow hlrow
  show (if (((endQualCodes s).map (endRecord s)).filter
        (fun rrow => decide (rrow.getD 0 Cell.null = lrow.getD 0 Cell.null))).isEmpty
      then [lrow ++ [Cell.null]]
      else (((endQualCodes s).map (endRecord s)).filter
        (fun rrow => decide (rrow.getD 0 Cell.null = lrow.getD 0 Cell.null))).map
        (fun rrow => lrow ++ [rrow.getD 1 Cell.null])) =
    mergeEndRows s lrow
  have hfil : ((endQualCodes s).map (endRecord s)).filter
      (fun rrow => decide (rrow.getD 0 Cell.null = lrow.getD 0 Cell.null)) =
      (endMatches s lrow).map (endRecord s) := by
    rw [List.filter_map]
    rfl
  rw [hfil]
  unfold mergeEndRows
  cases hem : endMatches s lrow with
  | nil => rfl
  | cons a as =>
    rw [List.map_map]
    rfl

/-! ### Inversion of `gen_asset_metadata` -/

theorem gen_ok (s : Store) (df : DataFrame)
    (h : gen_asset_metadata s = .ok df) :
    dailyCodes s ≠ [] ∧ (∀ c ∈ dailyCodes s, c.data ≠ []) ∧
    df = DataFrame.mergeLeft (DataFrame.mergeLeft
        ⟨metaCols6, (dailyCodes s).map (metaRow6 s)⟩
        ⟨["symbol", "start_date"].map ColLabel.named,
         (issueKeep s).map startRecord⟩ "symbol")
      ⟨["symbol", "end_date"].map ColLabel.named,
       (endQualCodes s).map (endRecord s)⟩ "symbol" := by
  unfold gen_asset_metadata at h
  split at h
  · exact absurd h (by simp)
  · rename_i df1 hb
    split at h
    · exact absurd h (by simp)
    · rename_i df2 hx
      split at h
      · exact absurd h (by simp)
      · rename_i sdf hs
        split at h
        · exact absurd h (by simp)
        · rename_i edf he
          cases h
          obtain ⟨hc1, rfl⟩ := (metaBase_ok_iff s df1).mp hb
          obtain ⟨hcodes, rfl⟩ := addExchange_meta s df2 hx
          obtain ⟨-, rfl⟩ := (get_start_dates_ok_iff s sdf).mp hs
          obtain ⟨-, rfl⟩ := (get_end_dates_ok_iff s edf).mp he
          rw [addAutoClose_meta s]
          exact ⟨hc1, hcodes, rfl⟩

/-! ### Shape of the merged rows -/

theorem mergeStartRows_shape (s : Store) (c : String) (lrow : List Cell)
    (h : lrow ∈ mergeStartRows s c) :
    ∃ sc, lrow = metaRow6 s c ++ [sc] ∧
      ((startMatches s c = [] ∧ sc = Cell.null) ∨
       (∃ r ∈ startMatches s c, sc = optDateCell r.listing_date)) := by
  unfold mergeStartRows at h
  split at h
  · rename_i he
    rw [List.mem_singleton] at h
    exact ⟨Cell.null, h, Or.inl ⟨List.isEmpty_iff.mp he, rfl⟩⟩
  · obtain ⟨r, hr, rfl⟩ := List.mem_map.mp h
    exact ⟨optDateCell r.listing_date, rfl, Or.inr ⟨r, hr, rfl⟩⟩

theorem mergeStartRows_ne_nil (s : Store) (c : String) :
    mergeStartRows s c ≠ [] := by
  unfold mergeStartRows
  split
  · simp
  · rename_i he
    intro hnil
    rw [List.map_eq_nil_iff] at hnil
    exact he (by rw [hnil]; rfl)

theorem mergeEndRows_shape (s : Store) (lrow row : List Cell)
    (h : row ∈ mergeEndRows s lrow) :
    ∃ ec, row = lrow ++ [ec] ∧
      ((endMatches s lrow = [] ∧ ec = Cell.null) ∨
       (∃ c2 ∈ endMatches s lrow, ec = Cell.dt (stGroupMax s c2))) := by
  unfold mergeEndRows at h
  split at h
  · rename_i he
    rw [List.mem_singleton] at h
    exact ⟨Cell.null, h, Or.inl ⟨List.isEmpty_iff.mp he, rfl⟩⟩
  · obtain ⟨c2, hc2, rfl⟩ := List.mem_map.mp h
    exact ⟨Cell.dt (stGroupMax s c2), rfl, Or.inr ⟨c2, hc2, rfl⟩⟩

theorem mergeEndRows_ne_nil (s : Store) (lrow : List Cell) :
    mergeEndRows s lrow ≠ [] := by
  unfold mergeEndRows
  split
  · simp
  · rename_i he
    intro hnil
    rw [List.map_eq_nil_iff] at hnil
    exact he (by rw [hnil]; rfl)

theorem nodup_endQualCodes (s : Store) : (endQualCodes s).Nodup :=
  List.Nodup.filter _ (List.nodup_dedup _)

theorem endMatches_eq (s : Store) (lrow : List Cell) (c : String)
    (h0 : lrow.getD 0 Cell.null = Cell.str c) :
    endMatches s lrow = if hasQualifyingST s c = true then [c] else [] := by
  unfold endMatches
  rw [h0]
  have hpred : (fun c2 => decide (Cell.str c2 = Cell.str c)) =
      (fun c2 => decide (c2 = c)) := by
    funext c2
    exact decide_eq_decide.mpr (by simp)
  rw [hpred, filter_eq_of_nodup (nodup_endQualCodes s) c]
  simp [mem_endQualCodes]

theorem mem_startMatches {s : Store} {c : String} {r : IssueRow}
    (h : r ∈ startMatches s c) :
    r ∈ s.issues ∧ r.listing_date.isSome = true ∧ r.code = c := by
  unfold startMatches issueKeep at h
  rw [List.mem_filter] at h
  obtain ⟨h1, h2⟩ := h
  rw [List.mem_filter] at h1
  exact ⟨h1.1, h1.2, of_decide_eq_true h2⟩

/-- The central membership characterization of `gen_asset_metadata`'s
output rows: every row belongs to a grouped symbol, is the six derived
cells followed by a start cell and an end cell, with the merge-miss cells
null. -/
theorem gen_rows_mem (s : Store) (df : DataFrame)
    (h : gen_asset_metadata s = .ok df) :
    ∀ row ∈ df.rows, ∃ c ∈ dailyCodes s, ∃ sc ec,
      row = metaRow6 s c ++ [sc] ++ [ec] ∧ c.data ≠ [] ∧
      ((startMatches s c = [] ∧ sc = Cell.null) ∨
        (∃ r ∈ startMatches s c, sc = optDateCell r.listing_date)) ∧
      ((hasQualifyingST s c = false ∧ ec = Cell.null) ∨
        (hasQualifyingST s c = true ∧ ec = Cell.dt (stGroupMax s c))) := by
  intro row hrow
  obtain ⟨-, hcodes, hdf⟩ := gen_ok s df h
  rw [hdf, mergeLeft_start s,
    mergeLeft_end s ((dailyCodes s).flatMap (mergeStartRows s))] at hrow
  replace hrow : row ∈
      ((dailyCodes s).flatMap (mergeStartRows s)).flatMap (mergeEndRows s) :=
    hrow
  rw [List.flatMap_assoc] at hrow
  obtain ⟨c, hc, hrow2⟩ := List.mem_flatMap.mp hrow
  obtain ⟨lrow, hlrow, hrow3⟩ := List.mem_flatMap.mp hrow2
  obtain ⟨sc, rfl, hsc⟩ := mergeStartRows_shape s c lrow hlrow
  obtain ⟨ec, rfl, hec⟩ := mergeEndRows_shape s (metaRow6 s c ++ [sc]) row
    hrow3
  refine ⟨c, hc, sc, ec, rfl, hcodes c hc, hsc, ?_⟩
  have hem := endMatches_eq s (metaRow6 s c ++ [sc]) c rfl
  rcases hec with ⟨hnil, rfl⟩ | ⟨c2, hc2, rfl⟩
  · left
    refine ⟨?_, rfl⟩
    cases hq : hasQualifyingST s c with
    | false => rfl
    | true =>
      rw [hq, if_pos rfl] at hem
      rw [hem] at hnil
      exact absurd hnil (by simp)
  · right
    rw [hem] at hc2
    by_cases hq : hasQualifyingST s c = true
    · rw [if_pos hq] at hc2
      obtain rfl : c2 = c := List.mem_singleton.mp hc2
      exact ⟨hq, rfl⟩
    · rw [if_neg hq] at hc2
      cases hc2

/-! ### Claim C7: auto_close_date is last_traded plus one day -/

/-- C7: in every row of `gen_asset_metadata`'s output, the auto-close cell
is a (non-null) date equal to the last-traded date plus exactly one day. -/
theorem auto_close_plus_one (s : Store) (df : DataFrame)
    (h : gen_asset_metadata s = .ok df) :
    ∀ row ∈ df.rows, ∃ d : ℤ,
      row.getD 3 Cell.null = Cell.dt d ∧
      row.getD 5 Cell.null = Cell.dt (d + 1) := by
  intro row hrow
  obtain ⟨c, -, sc, ec, rfl, -, -, -⟩ := gen_rows_mem s df h row hrow
  exact ⟨lastTraded s c, rfl, rfl⟩

/-- Witness for C7 at the concrete store's single metadata row. -/
theorem auto_close_plus_one_witness :
    ∃ d : ℤ, WRow.getD 3 Cell.null = Cell.dt d ∧
      WRow.getD 5 Cell.null = Cell.dt (d + 1) :=
  auto_close_plus_one WStore WMeta (by decide) WRow (by decide)

/-! ### Claim C6: the exchange rule and its use on every metadata row -/

/-- C6: the derived exchange is `"SZSE"` exactly when the symbol's first
character is `'0'` or `'3'` and `"SSE"` otherwise, and every row of
`gen_asset_metadata`'s output carries the exchange derived by this rule
from its own symbol. -/
theorem exchange_rule :
    (∀ c : String, c ≠ "" →
      ((get_exchange c = .ok "SZSE" ↔
        (firstChar c = some '0' ∨ firstChar c = some '3')) ∧
       (¬(firstChar c = some '0' ∨ firstChar c = some '3') →
        get_exchange c = .ok "SSE"))) ∧
    (∀ (s : Store) (df : DataFrame), gen_asset_metadata s = .ok df →
      ∀ row ∈ df.rows, ∃ sym, sym ≠ "" ∧
        row.getD 0 Cell.null = Cell.str sym ∧
        row.getD 4 Cell.null = Cell.str
          (if firstChar sym = some '0' ∨ firstChar sym = some '3'
           then "SZSE" else "SSE")) := by
  constructor
  · intro c hc
    have hd : c.data ≠ [] := fun hnil => hc (String.ext hnil)
    rw [get_exchange_eq_pure hd]
    unfold pureExchange
    constructor
    · by_cases h03 : firstChar c = some '0' ∨ firstChar c = some '3'
      · simp [h03]
      · simp [h03]
    · intro h03
      rw [if_neg h03]
  · intro s df h row hrow
    obtain ⟨c, -, sc, ec, rfl, hd, -, -⟩ := gen_rows_mem s df h row hrow
    refine ⟨c, fun hce => hd (by rw [hce]), rfl, rfl⟩

/-- Witness for C6 at a Shanghai symbol and the concrete metadata row. -/
theorem exchange_rule_witness :
    get_exchange "600000" = .ok "SSE" ∧
    (∃ sym, sym ≠ "" ∧ WRow.getD 0 Cell.null = Cell.str sym ∧
      WRow.getD 4 Cell.null = Cell.str
        (if firstChar sym = some '0' ∨ firstChar sym = some '3'
         then "SZSE" else "SSE")) :=
  ⟨(exchange_rule.1 "600000" (by decide)).2 (by decide),
   exchange_rule.2 WStore WMeta (by decide) WRow (by decide)⟩

/-! ### Claim C3: the full shape of `gen_asset_metadata`'s output -/

theorem startMatches_len (s : Store)
    (hIss : (s.issues.map IssueRow.code).Nodup) (c : String) :
    (startMatches s c).length ≤ 1 := by
  unfold startMatches
  have hsub : ((issueKeep s).map IssueRow.code).Sublist
      (s.issues.map IssueRow.code) :=
    List.Sublist.map _ (List.filter_sublist _)
  exact length_filter_le_one (List.Nodup.sublist hsub hIss) c

theorem mergeStartRows_length (s : Store)
    (hIss : (s.issues.map IssueRow.code).Nodup) (c : String) :
    (mergeStartRows s c).length = 1 := by
  unfold mergeStartRows
  split
  · rfl
  · rename_i he
    rw [List.length_map]
    have h1 := startMatches_len s hIss c
    have h0 : startMatches s c ≠ [] := fun hnil => he (by rw [hnil]; rfl)
    have h2 := List.length_pos.mpr h0
    omega

theorem mergeEndRows_length (s : Store) (lrow : List Cell) (c : String)
    (h0 : lrow.getD 0 Cell.null = Cell.str c) :
    (mergeEndRows s lrow).length = 1 := by
  unfold mergeEndRows
  rw [endMatches_eq s lrow c h0]
  by_cases hq : hasQualifyingST s c = true
  · simp [hq]
  · simp [hq]

/-- C3: `gen_asset_metadata` (on a store whose Issue symbols are unique,
as its primary key guarantees) emits the eight columns in order, exactly
one row per distinct StockDaily symbol, with per-group min/max trade
dates, and null start/end cells for symbols absent from Issue or without
a qualifying special treatment. -/
theorem gen_asset_metadata_spec (s : Store) (df : DataFrame)
    (hIss : (s.issues.map IssueRow.code).Nodup)
    (h : gen_asset_metadata s = .ok df) :
    df.columns = ["symbol", "asset_name", "first_traded", "last_traded",
      "exchange", "auto_close_date", "start_date", "end_date"].map
      ColLabel.named ∧
    df.rows.length = (dailyCodes s).length ∧
    (dailyCodes s).Nodup ∧
    (∀ c, c ∈ dailyCodes s ↔ c ∈ s.stockDailies.map StockDailyRow.code) ∧
    (∀ row ∈ df.rows, ∃ c ∈ dailyCodes s,
      row.getD 0 Cell.null = Cell.str c ∧
      row.getD 2 Cell.null = Cell.dt (firstTraded s c) ∧
      row.getD 3 Cell.null = Cell.dt (lastTraded s c) ∧
      ((∀ r ∈ s.issues, r.code ≠ c) → row.getD 6 Cell.null = Cell.null) ∧
      (hasQualifyingST s c = false → row.getD 7 Cell.null = Cell.null)) ∧
    (∀ c ∈ dailyCodes s, ∃ row ∈ df.rows,
      row.getD 0 Cell.null = Cell.str c) := by
  obtain ⟨-, -, hdf⟩ := gen_ok s df h
  refine ⟨?_, ?_, List.nodup_dedup _, fun c => List.mem_dedup, ?_, ?_⟩
  · rw [hdf, mergeLeft_start s,
      mergeLeft_end s ((dailyCodes s).flatMap (mergeStartRows s))]
    rfl
  · rw [hdf, mergeLeft_start s,
      mergeLeft_end s ((dailyCodes s).flatMap (mergeStartRows s))]
    show (((dailyCodes s).flatMap (mergeStartRows s)).flatMap
      (mergeEndRows s)).length = _
    rw [List.flatMap_assoc]
    apply flatMap_length_ones
    intro c hc
    obtain ⟨lrow, hl⟩ := List.length_eq_one.mp
      (mergeStartRows_length s hIss c)
    rw [hl, List.flatMap_cons, List.flatMap_nil, List.append_nil]
    have hmem : lrow ∈ mergeStartRows s c := by
      rw [hl]
      exact List.mem_singleton.mpr rfl
    obtain ⟨sc, rfl, -⟩ := mergeStartRows_shape s c lrow hmem
    exact mergeEndRows_length s _ c rfl
  · intro row hrow
    obtain ⟨c, hc, sc, ec, rfl, -, hsc, hec⟩ := gen_rows_mem s df h row hrow
    refine ⟨c, hc, rfl, rfl, rfl, ?_, ?_⟩
    · intro habs
      rcases hsc with ⟨-, rfl⟩ | ⟨r, hr, rfl⟩
      · rfl
      · obtain ⟨hri, -, hrc⟩ := mem_startMatches hr
        exact absurd hrc (habs r hri)
    · intro hq
      rcases hec with ⟨-, rfl⟩ | ⟨hq2, rfl⟩
      · rfl
      · rw [hq2] at hq
        cases hq
  · intro c hc
    obtain ⟨lrow, hlrow⟩ := List.exists_mem_of_ne_nil _
      (mergeStartRows_ne_nil s c)
    obtain ⟨row2, hrow2⟩ := List.exists_mem_of_ne_nil _
      (mergeEndRows_ne_nil s lrow)
    refine ⟨row2, ?_, ?_⟩
    · rw [hdf, mergeLeft_start s,
        mergeLeft_end s ((dailyCodes s).flatMap (mergeStartRows s))]
      show row2 ∈ ((dailyCodes s).flatMap (mergeStartRows s)).flatMap
        (mergeEndRows s)
      rw [List.flatMap_assoc]
      exact List.mem_flatMap.mpr ⟨c, hc,
        List.mem_flatMap.mpr ⟨lrow, hlrow, hrow2⟩⟩
    · obtain ⟨sc, rfl, -⟩ := mergeStartRows_shape s c lrow hlrow
      obtain ⟨ec, rfl, -⟩ := mergeEndRows_shape s _ row2 hrow2
      rfl

/-- Witness for C3 at the concrete store: one distinct daily symbol, one
output row. -/
theorem gen_asset_metadata_spec_witness :
    WMeta.rows.length = (dailyCodes WStore).length :=
  (gen_asset_metadata_spec WStore WMeta (by decide) (by decide)).2.1

end SqlData
